import Mathlib

/-!
Verification of the `algae` library core: the predicate-composed set
(`AlgaeSet`, src/algaeset.rs) and the property-verified operation engine
(`permutations`, `PropertyType`, `BinaryOperation`, src/mapping.rs).
Rust methods mutating `&mut self` are embedded as functions returning the
updated structure; `Result<T, PropertyError>` becomes `Except PropertyError T`.
-/

/- ---------------------------------------------------------------------
   src/mapping.rs : the windowed tuple sampler
--------------------------------------------------------------------- -/

/-- Auxiliary chunking recursion. `chunksAux k fuel l` walks `l`, emitting
`l.take k` and recursing on `l.drop k`. Structural recursion on `fuel`;
callers pass `fuel = l.length`, which suffices for every `k ≥ 1` because
each step removes at least one element from a non-empty list. This embeds
Rust's slice `chunks(k)` iterator (which emits every chunk, the short
trailing one included). -/
def chunksAux (k : Nat) : Nat → List T → List (List T)
  | 0, _ => []
  | _ + 1, [] => []
  | fuel + 1, x :: xs => ((x :: xs).take k) :: chunksAux k fuel ((x :: xs).drop k)

/-- Rust `collection.chunks(k)` as a list of chunks (short trailing chunk
included), for `k ≥ 1`. -/
def rustChunks (k : Nat) (l : List T) : List (List T) :=
  chunksAux k l.length l

/-- `fn permutations<T: Clone>(collection: &[T], group_size: usize)` from
src/mapping.rs: collect the chunks of exactly `group_size` elements of
`collection`, then those of the reversed collection; short chunks are
skipped (the `continue` branch), here rendered as a filter. -/
def permutations (collection : List T) (group_size : Nat) : List (List T) :=
  let groupings :=
    (rustChunks group_size collection).filter (fun chunk => chunk.length == group_size)
  let reversed_collection := collection.reverse
  groupings ++
    (rustChunks group_size reversed_collection).filter (fun chunk => chunk.length == group_size)

/- ---------------------------------------------------------------------
   src/mapping.rs : errors and property kinds
--------------------------------------------------------------------- -/

/-- `enum PropertyError` from src/mapping.rs. -/
inductive PropertyError where
  | CommutativityError
  | AssociativityError
  | CancellativityError
  | IdentityError
  | InvertibilityError
  | Other (msg : String)
deriving DecidableEq

/-- `enum PropertyType<'a, T>` from src/mapping.rs. The `Invertible`
variant stores the identity and a reference to the inverse function. -/
inductive PropertyType (T : Type) where
  | Commutative
  | Abelian
  | Associative
  | Cancellative
  | WithIdentity (identity : T)
  | Invertible (identity : T) (inv : T → T → T)

/-- `PropertyType::commutativity_holds_over` from src/mapping.rs. -/
def PropertyType.commutativity_holds_over [DecidableEq T] [Inhabited T]
    (op : T → T → T) (domain_sample : List T) : Bool :=
  if domain_sample.length < 2 then true
  else (permutations domain_sample 2).all fun pair =>
    let left := op (pair.getD 0 default) (pair.getD 1 default)
    let right := op (pair.getD 1 default) (pair.getD 0 default)
    left == right

/-- `PropertyType::associativity_holds_over` from src/mapping.rs. -/
def PropertyType.associativity_holds_over [DecidableEq T] [Inhabited T]
    (op : T → T → T) (domain_sample : List T) : Bool :=
  if domain_sample.length < 3 then true
  else (permutations domain_sample 3).all fun triple =>
    let left_first := op (op (triple.getD 0 default) (triple.getD 1 default)) (triple.getD 2 default)
    let right_first := op (triple.getD 0 default) (op (triple.getD 1 default) (triple.getD 2 default))
    left_first == right_first

/-- `PropertyType::identity_holds_over` from src/mapping.rs. -/
def PropertyType.identity_holds_over [DecidableEq T] [Inhabited T]
    (op : T → T → T) (domain_sample : List T) (identity : T) : Bool :=
  domain_sample.all fun e =>
    let from_left := op identity e
    let from_right := op e identity
    (e == from_left) && (e == from_right)

/-- `PropertyType::cancellative_holds_over` from src/mapping.rs. -/
def PropertyType.cancellative_holds_over [DecidableEq T] [Inhabited T]
    (op : T → T → T) (domain_sample : List T) : Bool :=
  if domain_sample.length < 3 then true
  else
    let left_cancellative := (permutations domain_sample 3).all fun triple =>
      if op (triple.getD 0 default) (triple.getD 1 default)
          == op (triple.getD 0 default) (triple.getD 2 default) then
        triple.getD 1 default == triple.getD 2 default
      else true
    let right_cancellative := (permutations domain_sample 3).all fun triple =>
      if op (triple.getD 1 default) (triple.getD 0 default)
          == op (triple.getD 2 default) (triple.getD 0 default) then
        triple.getD 1 default == triple.getD 2 default
      else true
    left_cancellative && right_cancellative

/-- `PropertyType::invertibility_holds_over` from src/mapping.rs. -/
def PropertyType.invertibility_holds_over [DecidableEq T] [Inhabited T]
    (op : T → T → T) (inv : T → T → T) (domain_sample : List T) (identity : T) : Bool :=
  if domain_sample.length < 2 then true
  else (permutations domain_sample 2).all fun pair =>
    let inverse_works := inv (pair.getD 0 default) (pair.getD 0 default) == identity
    let left_composition_works :=
      inv (op (pair.getD 0 default) (pair.getD 1 default)) (pair.getD 1 default)
        == pair.getD 0 default
    let right_composition_works :=
      inv (op (pair.getD 1 default) (pair.getD 0 default)) (pair.getD 1 default)
        == pair.getD 0 default
    inverse_works && left_composition_works && right_composition_works

/-- `PropertyType::holds_over` from src/mapping.rs: dispatch to the law's
checker. -/
def PropertyType.holds_over [DecidableEq T] [Inhabited T]
    (p : PropertyType T) (op : T → T → T) (domain_sample : List T) : Bool :=
  match p with
  | .Commutative | .Abelian => commutativity_holds_over op domain_sample
  | .Associative => associativity_holds_over op domain_sample
  | .Cancellative => cancellative_holds_over op domain_sample
  | .WithIdentity identity => identity_holds_over op domain_sample identity
  | .Invertible identity inv => invertibility_holds_over op inv domain_sample identity

/-- `impl PartialEq for PropertyType` from src/mapping.rs: equality by tag,
with `Commutative` and `Abelian` each matching both of themselves, and
payloads ignored. -/
def PropertyType.eq : PropertyType T → PropertyType T → Bool
  | .Commutative, .Commutative => true
  | .Commutative, .Abelian => true
  | .Abelian, .Commutative => true
  | .Abelian, .Abelian => true
  | .Associative, .Associative => true
  | .Cancellative, .Cancellative => true
  | .WithIdentity _, .WithIdentity _ => true
  | .Invertible _ _, .Invertible _ _ => true
  | _, _ => false

/- ---------------------------------------------------------------------
   src/mapping.rs : the verified operation and `with`
--------------------------------------------------------------------- -/

/-- The data of a `BinaryOperation` trait object from src/mapping.rs: the
underlying function (`operation()`), the declared law list (`properties()`),
and the input history (`input_history()`); `cache` appends to the history.
Every concrete wrapper (`AbelianOperation`, `AssociativeOperation`, ...)
is an instance of this shape. -/
structure BinaryOperation (T : Type) where
  operation : T → T → T
  properties : List (PropertyType T)
  history : List T

/-- The property loop inside `BinaryOperation::with` from src/mapping.rs:
scan the declared laws in order; on the first law that fails to hold over
the history, produce the error kind of the `match property` arms; if all
hold, produce nothing. -/
def BinaryOperation.checkProperties [DecidableEq T] [Inhabited T]
    (op : T → T → T) (history : List T) : List (PropertyType T) → Option PropertyError
  | [] => none
  | property :: rest =>
    if property.holds_over op history then
      checkProperties op history rest
    else
      some (match property with
        | .Commutative | .Abelian => .CommutativityError
        | .Associative => .AssociativityError
        | .Cancellative => .CancellativityError
        | .WithIdentity _ => .IdentityError
        | .Invertible _ _ => .InvertibilityError)

/-- `BinaryOperation::with(&mut self, left, right)` from src/mapping.rs:
cache `left` then `right`, check every declared property over the updated
history, and either return the first property's error or
`Ok(op(left, right))`. The mutated receiver is returned alongside the
result (`with` is a Lean keyword, hence the name `withArgs`). -/
def BinaryOperation.withArgs [DecidableEq T] [Inhabited T]
    (b : BinaryOperation T) (left right : T) :
    BinaryOperation T × Except PropertyError T :=
  let b := { b with history := b.history ++ [left, right] }
  match BinaryOperation.checkProperties b.operation b.history b.properties with
  | some err => (b, .error err)
  | none => (b, .ok (b.operation left right))

/-- `AbelianOperation::new` from src/mapping.rs, together with its
`BinaryOperation` impl: the wrapper enforcing commutativity declares
`vec![PropertyType::Commutative, PropertyType::Abelian]` and starts with
an empty history. -/
def AbelianOperation.new (op : T → T → T) : BinaryOperation T :=
  { operation := op
    properties := [.Commutative, .Abelian]
    history := [] }

/- ---------------------------------------------------------------------
   src/algaeset.rs : the predicate-composed set
--------------------------------------------------------------------- -/

/-- `struct AlgaeSet<E>` from src/algaeset.rs: inclusion and exclusion
predicate lists. -/
structure AlgaeSet (E : Type) where
  pos_conditions : List (E → Bool)
  neg_conditions : List (E → Bool)

/-- `AlgaeSet::has` from src/algaeset.rs: excluded elements are rejected
first; otherwise membership requires some inclusion predicate to match. -/
def AlgaeSet.has (s : AlgaeSet E) (element : E) : Bool :=
  if s.neg_conditions.any fun c => c element then false
  else s.pos_conditions.any fun c => c element

/-- `AlgaeSet::add` from src/algaeset.rs: drop every exclusion predicate
matching `element` (Rust `retain` keeps those where `!(c)(element)`), then
append the inclusion predicate `x == element`. -/
def AlgaeSet.add [DecidableEq E] (s : AlgaeSet E) (element : E) : AlgaeSet E :=
  { pos_conditions := s.pos_conditions ++ [fun x => x == element]
    neg_conditions := s.neg_conditions.filter fun c => !(c element) }

/-- `AlgaeSet::remove` from src/algaeset.rs: keep only the inclusion
predicates that match `element` (Rust `retain` keeps those where
`(c)(element)`), then append the exclusion predicate `x == element`. -/
def AlgaeSet.remove [DecidableEq E] (s : AlgaeSet E) (element : E) : AlgaeSet E :=
  { pos_conditions := s.pos_conditions.filter fun c => c element
    neg_conditions := s.neg_conditions ++ [fun x => x == element] }

/-- `AlgaeSet::or` from src/algaeset.rs: append the inclusion predicate
`x -> other.has(x)`. -/
def AlgaeSet.or (s : AlgaeSet E) (other : AlgaeSet E) : AlgaeSet E :=
  { s with pos_conditions := s.pos_conditions ++ [fun x => other.has x] }

/-- `AlgaeSet::and` from src/algaeset.rs: append the exclusion predicate
`x -> !other.has(x)`. -/
def AlgaeSet.and (s : AlgaeSet E) (other : AlgaeSet E) : AlgaeSet E :=
  { s with neg_conditions := s.neg_conditions ++ [fun x => !(other.has x)] }

/- ---------------------------------------------------------------------
   Spec-side definitions used to state the claims
--------------------------------------------------------------------- -/

/-- The error kind dedicated to each law, as the spec names them: one kind
per violated law. -/
def errorFor : PropertyType T → PropertyError
  | .Commutative | .Abelian => .CommutativityError
  | .Associative => .AssociativityError
  | .Cancellative => .CancellativityError
  | .WithIdentity _ => .IdentityError
  | .Invertible _ _ => .InvertibilityError

/-- The tuple size each law requires, per the spec's checker table: 2 for
Commutative/Abelian and Invertible, 3 for Associative and Cancellative,
and 1 for WithIdentity (it inspects single history elements, so only the
empty history carries no evidence). -/
def PropertyType.requiredTupleSize : PropertyType T → Nat
  | .Commutative | .Abelian | .Invertible _ _ => 2
  | .Associative | .Cancellative => 3
  | .WithIdentity _ => 1

/-- The discriminant of a law, with Abelian an alias of Commutative for
law-matching purposes, as the spec describes `PropertyKind` equality. -/
def lawTag : PropertyType T → Nat
  | .Commutative => 0
  | .Abelian => 0
  | .Associative => 1
  | .Cancellative => 2
  | .WithIdentity _ => 3
  | .Invertible _ _ => 4

/-- The sampler's contract as the spec words it: the consecutive blocks of
length exactly `k` of `s`, in order (a shorter trailing block discarded),
followed by the consecutive blocks of length exactly `k` of the reverse
of `s`, in order. Block `i` of a sequence `t` is `(t.drop (i*k)).take k`,
and there are `t.length / k` full blocks. -/
def specGroupings (s : List T) (k : Nat) : List (List T) :=
  ((List.range (s.length / k)).map fun i => (s.drop (i * k)).take k)
  ++ ((List.range (s.reverse.length / k)).map fun i => (s.reverse.drop (i * k)).take k)

/- ---------------------------------------------------------------------
   Helper lemmas
--------------------------------------------------------------------- -/

theorem chunksAux_nil (k fuel : Nat) : chunksAux k fuel ([] : List T) = [] := by
  cases fuel <;> rfl

theorem filter_chunksAux (k : Nat) (hk : 1 ≤ k) :
    ∀ (fuel : Nat) (l : List T), l.length ≤ fuel →
      ((chunksAux k fuel l).filter fun c => c.length == k)
        = (List.range (l.length / k)).map fun i => (l.drop (i * k)).take k := by
  intro fuel
  induction fuel with
  | zero =>
    intro l hl
    have hnil : l = [] := List.eq_nil_of_length_eq_zero (Nat.le_zero.mp hl)
    subst hnil
    simp [chunksAux, Nat.zero_div]
  | succ fuel ih =>
    intro l hl
    match l with
    | [] => simp [chunksAux, Nat.zero_div]
    | x :: xs =>
      rw [chunksAux, List.filter_cons]
      by_cases hkn : k ≤ (x :: xs).length
      · have htake : ((x :: xs).take k).length = k := by
          rw [List.length_take]
          omega
        have hdroplen : ((x :: xs).drop k).length ≤ fuel := by
          rw [List.length_drop]
          omega
        rw [if_pos (by simp [htake]), ih _ hdroplen]
        have hdiv : (x :: xs).length / k = ((x :: xs).drop k).length / k + 1 := by
          rw [List.length_drop, Nat.div_eq_sub_div (by omega) hkn]
        rw [hdiv, List.range_succ_eq_map, List.map_cons, List.map_map]
        have hhead : ((x :: xs).drop (0 * k)).take k = (x :: xs).take k := by
          simp
        have hfun :
            ((fun i => (((x :: xs).drop k).drop (i * k)).take k))
              = (fun i => ((x :: xs).drop (i * k)).take k) ∘ Nat.succ := by
          funext i
          have hidx : ((x :: xs).drop k).drop (i * k) = (x :: xs).drop (Nat.succ i * k) := by
            rw [List.drop_drop, Nat.succ_mul, Nat.add_comm]
          simp only [Function.comp_apply, hidx]
        rw [hhead, hfun]
      · have hcond : ¬ ((((x :: xs).take k).length == k) = true) := by
          simp only [beq_iff_eq, List.length_take]
          omega
        have hdrop : (x :: xs).drop k = [] := List.drop_eq_nil_of_le (by omega)
        rw [if_neg hcond, hdrop, chunksAux_nil]
        have hdiv : (x :: xs).length / k = 0 := Nat.div_eq_of_lt (by omega)
        rw [hdiv]
        rfl

theorem checkProperties_eq_find [DecidableEq T] [Inhabited T]
    (op : T → T → T) (history : List T) (props : List (PropertyType T)) :
    BinaryOperation.checkProperties op history props
      = (props.find? fun p => !(p.holds_over op history)).map errorFor := by
  induction props with
  | nil => rfl
  | cons p rest ih =>
    simp only [BinaryOperation.checkProperties]
    by_cases hp : p.holds_over op history = true
    · rw [if_pos hp, ih, List.find?_cons_of_neg]
      simp [hp]
    · rw [if_neg hp, List.find?_cons_of_pos _ (by simp [Bool.not_eq_true] at hp ⊢; exact hp)]
      cases p <;> rfl

theorem withArgs_fst [DecidableEq T] [Inhabited T]
    (b : BinaryOperation T) (left right : T) :
    (b.withArgs left right).1 = { b with history := b.history ++ [left, right] } := by
  cases h : BinaryOperation.checkProperties b.operation (b.history ++ [left, right]) b.properties with
  | some e => simp [BinaryOperation.withArgs, h]
  | none => simp [BinaryOperation.withArgs, h]

/- ---------------------------------------------------------------------
   Claim theorems
--------------------------------------------------------------------- -/

/-- C1: `with(left, right)` appends `left` then `right` to the history and
tests each declared law in declaration order against the full history; the
result is the dedicated error of the first failing law (commutativity for
Commutative/Abelian, associativity for Associative, cancellativity for
Cancellative, identity for WithIdentity, invertibility for Invertible), or
`Ok(op(left, right))` when every declared law holds. -/
theorem BinaryOperation.withArgs_first_failing_law [DecidableEq T] [Inhabited T]
    (b : BinaryOperation T) (left right : T) :
    (b.withArgs left right).2 =
      match (b.properties.find? fun p =>
          !(p.holds_over b.operation (b.history ++ [left, right]))) with
      | some p => Except.error (errorFor p)
      | none => Except.ok (b.operation left right) := by
  cases hf : (b.properties.find? fun p =>
      !(p.holds_over b.operation (b.history ++ [left, right]))) with
  | none =>
    have hc : BinaryOperation.checkProperties b.operation
        (b.history ++ [left, right]) b.properties = none := by
      rw [checkProperties_eq_find, hf]
      rfl
    simp [BinaryOperation.withArgs, hc]
  | some p =>
    have hc : BinaryOperation.checkProperties b.operation
        (b.history ++ [left, right]) b.properties = some (errorFor p) := by
      rw [checkProperties_eq_find, hf]
      rfl
    simp [BinaryOperation.withArgs, hc]

/-- C2: membership in an `AlgaeSet` holds exactly when no exclusion
predicate matches and some inclusion predicate matches; whenever any
exclusion predicate matches, `has` is false regardless of the inclusion
predicates. -/
theorem AlgaeSet.has_spec (s : AlgaeSet E) (e : E) :
    (s.has e = true ↔
      ((∀ c ∈ s.neg_conditions, c e = false) ∧ ∃ c ∈ s.pos_conditions, c e = true))
    ∧ ((∃ c ∈ s.neg_conditions, c e = true) → s.has e = false) := by
  constructor
  · unfold AlgaeSet.has
    by_cases hn : (s.neg_conditions.any fun c => c e) = true
    · rw [if_pos hn]
      simp only [List.any_eq_true] at hn
      obtain ⟨c, hc, hce⟩ := hn
      constructor
      · intro h
        simp at h
      · rintro ⟨hneg, -⟩
        rw [hneg c hc] at hce
        exact hce
    · rw [if_neg hn]
      have hall : ∀ c ∈ s.neg_conditions, c e = false := by
        intro c hc
        by_contra hcf
        exact hn (List.any_eq_true.mpr ⟨c, hc, by simpa using hcf⟩)
      simp only [List.any_eq_true]
      constructor
      · intro h
        exact ⟨hall, h⟩
      · rintro ⟨-, h⟩
        exact h
  · rintro ⟨c, hc, hce⟩
    unfold AlgaeSet.has
    rw [if_pos (List.any_eq_true.mpr ⟨c, hc, hce⟩)]

/-- C2 witness: a set with the always-true exclusion predicate rejects 0. -/
theorem has_spec_witness :
    (AlgaeSet.mk ([] : List (Int → Bool)) [fun _ => true]).has 0 = false :=
  (AlgaeSet.has_spec (AlgaeSet.mk ([] : List (Int → Bool)) [fun _ => true]) 0).2
    ⟨fun _ => true, List.mem_singleton.mpr rfl, rfl⟩

/-- C3: the sampler returns exactly the full consecutive blocks of length
`k` of the sequence, in order, followed by the full consecutive blocks of
length `k` of the reversed sequence, in order, the shorter trailing block
of each half discarded. -/
theorem permutations_eq_specGroupings (s : List T) (k : Nat) (hk : 1 ≤ k) :
    permutations s k = specGroupings s k := by
  simp only [permutations, specGroupings, rustChunks]
  rw [filter_chunksAux k hk s.length s le_rfl,
    filter_chunksAux k hk s.reverse.length s.reverse le_rfl]

/-- C3 witness: the sampler agrees with its contract on `[1, 2, 3]` with
pair-sized blocks. -/
theorem permutations_eq_specGroupings_witness :
    permutations ([1, 2, 3] : List Int) 2 = specGroupings [1, 2, 3] 2 :=
  permutations_eq_specGroupings [1, 2, 3] 2 (by decide)

/-- C4 counterexample: union is not always inclusive. With
`A = ⟨[], [always true]⟩` and `B = ⟨[always true], []⟩`, `B.has 0` holds
before `A.or B`, yet the union still rejects 0 because `or` only appends
an inclusion predicate and `A`'s exclusion predicate keeps winning. -/
theorem union_not_always_inclusive :
    ((AlgaeSet.mk ([fun _ => true] : List (Int → Bool)) []).has 0 = true)
    ∧ (((AlgaeSet.mk ([] : List (Int → Bool)) [fun _ => true]).or
        (AlgaeSet.mk ([fun _ => true] : List (Int → Bool)) [])).has 0 = false) :=
  ⟨rfl, rfl⟩

/-- C4 amended: if `B.has x` held before the call and no exclusion
predicate of `A` matches `x`, then `A.has x` holds after `A.or B`. -/
theorem AlgaeSet.or_inclusive_of_no_exclusion (A B : AlgaeSet E) (x : E)
    (hB : B.has x = true) (hA : ∀ c ∈ A.neg_conditions, c x = false) :
    (A.or B).has x = true := by
  have hneg : (A.neg_conditions.any fun c => c x) = false := by
    simp only [List.any_eq_false]
    intro c hc
    simp [hA c hc]
  have hform : (A.or B).has x
      = (!(A.neg_conditions.any fun c => c x)
          && ((A.pos_conditions ++ [fun y => B.has y]).any fun c => c x)) := by
    unfold AlgaeSet.or AlgaeSet.has
    cases hn : A.neg_conditions.any fun c => c x <;> simp [hn]
  rw [hform, List.any_append, hneg]
  have hsingle : ([fun y => B.has y].any fun c => c x) = true := by
    simp [hB]
  rw [hsingle]
  simp

/-- C4 witness: the amended union property at an exclusion-free left set. -/
theorem or_inclusive_witness :
    ((AlgaeSet.mk ([] : List (Int → Bool)) []).or
      (AlgaeSet.mk ([fun _ => true] : List (Int → Bool)) [])).has 0 = true :=
  AlgaeSet.or_inclusive_of_no_exclusion (AlgaeSet.mk [] [])
    (AlgaeSet.mk [fun _ => true] []) 0 rfl (by simp)

/-- C5: even when `with(left, right)` returns an error, the history after
the call is the history before the call with `left` then `right`
appended. -/
theorem BinaryOperation.withArgs_mutates_history_on_error [DecidableEq T] [Inhabited T]
    (b : BinaryOperation T) (left right : T) (err : PropertyError)
    (h : (b.withArgs left right).2 = Except.error err) :
    (b.withArgs left right).1.history = b.history ++ [left, right] := by
  rw [withArgs_fst]

/-- C5 witness: subtraction declared commutative fails on `with(1, 2)`,
yet both inputs land in the history. -/
theorem withArgs_mutates_history_on_error_witness :
    ((AbelianOperation.new (fun a b : Int => a - b)).withArgs 1 2).1.history = [1, 2] :=
  BinaryOperation.withArgs_mutates_history_on_error
    (AbelianOperation.new (fun a b : Int => a - b)) 1 2 .CommutativityError rfl

/-- C6: a history shorter than the tuple size a law requires (2 for
Commutative/Abelian and Invertible, 3 for Associative and Cancellative,
1 for WithIdentity) satisfies the law vacuously, regardless of the
operation. -/
theorem PropertyType.holds_over_vacuous [DecidableEq T] [Inhabited T]
    (p : PropertyType T) (op : T → T → T) (hist : List T)
    (hlen : hist.length < p.requiredTupleSize) :
    p.holds_over op hist = true := by
  cases p with
  | Commutative =>
    simp only [requiredTupleSize] at hlen
    simp [holds_over, commutativity_holds_over, hlen]
  | Abelian =>
    simp only [requiredTupleSize] at hlen
    simp [holds_over, commutativity_holds_over, hlen]
  | Associative =>
    simp only [requiredTupleSize] at hlen
    simp [holds_over, associativity_holds_over, hlen]
  | Cancellative =>
    simp only [requiredTupleSize] at hlen
    simp [holds_over, cancellative_holds_over, hlen]
  | WithIdentity identity =>
    simp only [requiredTupleSize] at hlen
    have hnil : hist = [] := List.eq_nil_of_length_eq_zero (Nat.lt_one_iff.mp hlen)
    subst hnil
    rfl
  | Invertible identity inv =>
    simp only [requiredTupleSize] at hlen
    simp [holds_over, invertibility_holds_over, hlen]

/-- C6 witness: a single-element history vacuously satisfies
commutativity even for subtraction. -/
theorem holds_over_vacuous_witness :
    (PropertyType.Commutative : PropertyType Int).holds_over (fun a b => a - b) [5] = true :=
  PropertyType.holds_over_vacuous .Commutative (fun a b => a - b) [5] (by decide)

/-- C7: `PropertyType` equality compares only the tag, with Abelian an
alias of Commutative and the payloads of WithIdentity and Invertible
ignored; distinct tags are never equal. -/
theorem PropertyType.eq_by_tag (p q : PropertyType T) :
    PropertyType.eq p q = (lawTag p == lawTag q) := by
  cases p <;> cases q <;> rfl

/-- C8 counterexample: `remove(7)` on the set whose only inclusion
predicate is `y == 5` deletes that predicate (it does not match 7), so the
membership of 5 — an element different from the removed one — flips from
true to false: the inclusion-filtering is observable, not masked. -/
theorem remove_changes_other_membership :
    ((5 : Int) ≠ 7)
    ∧ ((AlgaeSet.mk ([fun y => y == 5] : List (Int → Bool)) []).has 5 = true)
    ∧ (((AlgaeSet.mk ([fun y => y == 5] : List (Int → Bool)) []).remove 7).has 5 = false) :=
  ⟨by decide, rfl, rfl⟩

/-- C8 amended: for `x ≠ e`, `remove(e)` leaves `has(x)` unchanged
provided every inclusion predicate of the set matches `e`, so that the
filtering step deletes nothing. -/
theorem AlgaeSet.remove_preserves_others [DecidableEq E] (S : AlgaeSet E) (e x : E)
    (hne : x ≠ e) (hpos : ∀ c ∈ S.pos_conditions, c e = true) :
    (S.remove e).has x = S.has x := by
  have hfilter : (S.pos_conditions.filter fun c => c e) = S.pos_conditions :=
    List.filter_eq_self.mpr (by intro c hc; simp [hpos c hc])
  have hbeq : (x == e) = false := by
    simp [hne]
  simp [AlgaeSet.remove, AlgaeSet.has, hfilter, List.any_append, hbeq]

/-- C8 witness: removing 7 from the set whose sole inclusion predicate is
`y == 7` leaves the membership of 5 unchanged. -/
theorem remove_preserves_others_witness :
    ((AlgaeSet.mk ([fun y => y == 7] : List (Int → Bool)) []).remove 7).has 5
      = (AlgaeSet.mk ([fun y => y == 7] : List (Int → Bool)) []).has 5 :=
  AlgaeSet.remove_preserves_others (AlgaeSet.mk [fun y => y == 7] []) 7 5
    (by decide) (by intro c hc; simp at hc; subst hc; rfl)

/-- C9: integer addition declared commutative succeeds on `with(1, 2)`
with 3 and then on `with(3, 4)` with 7; integer subtraction declared
commutative fails on `with(1, 2)` with `CommutativityError`. -/
theorem commutative_wrapper_examples :
    (((AbelianOperation.new (fun a b : Int => a + b)).withArgs 1 2).2 = Except.ok 3)
    ∧ ((((AbelianOperation.new (fun a b : Int => a + b)).withArgs 1 2).1.withArgs 3 4).2
        = Except.ok 7)
    ∧ (((AbelianOperation.new (fun a b : Int => a - b)).withArgs 1 2).2
        = Except.error PropertyError.CommutativityError) :=
  ⟨rfl, rfl, rfl⟩

/-- C10: `add(e)` can change the membership of an element other than `e`.
Intersecting the universal set with `{1}` leaves 3 excluded; adding 2 then
deletes the intersection closure (it matches 2), which readmits 3. -/
theorem add_changes_other_membership :
    ((3 : Int) ≠ 2)
    ∧ ((((AlgaeSet.mk ([fun _ => true] : List (Int → Bool)) []).and
         (AlgaeSet.mk ([fun y => y == 1] : List (Int → Bool)) [])).has 3) = false)
    ∧ (((((AlgaeSet.mk ([fun _ => true] : List (Int → Bool)) []).and
         (AlgaeSet.mk ([fun y => y == 1] : List (Int → Bool)) [])).add 2).has 3) = true) :=
  ⟨by decide, rfl, rfl⟩
